import Mathlib

set_option maxHeartbeats 1000000
set_option maxRecDepth 100000

/-! Verification development for the SRM Academia scraper (srm_scrapper.py).
A shallow embedding of the data model and the pure core of the scraping,
deduplication, course-title resolution and timetable reconciliation
algorithms, with theorems settling the specification claims.
Python strings are modelled as Lean `String`; the Python string
operations the code uses (strip, lower, split, join, replace, in) are
given explicit executable models on character lists. -/

namespace SRM

/-- Python str.strip(): remove leading and trailing whitespace. -/
def pyStrip (s : String) : String :=
  (((s.data.dropWhile Char.isWhitespace).reverse.dropWhile Char.isWhitespace).reverse).asString

/-- Python str.lower() on the ASCII text the scraper handles. -/
def pyLower (s : String) : String :=
  (s.data.map Char.toLower).asString

/-- Python str.split(sep) for a one-character separator, on char lists.
Always returns a non-empty list of groups; empty groups are kept,
exactly as in Python. -/
def splitChar (sep : Char) : List Char → List (List Char)
  | [] => [[]]
  | c :: rest =>
    match splitChar sep rest with
    | [] => [[]]
    | g :: gs => if c = sep then [] :: g :: gs else (c :: g) :: gs

/-- Python str.split(sep) for a one-character separator. -/
def pySplit (sep : Char) (s : String) : List String :=
  (splitChar sep s.data).map List.asString

/-- Python sep.join(xs). -/
def pyJoin (sep : String) : List String → String
  | [] => ""
  | [x] => x
  | x :: y :: xs => x ++ sep ++ pyJoin sep (y :: xs)

/-- Python `c in s` for a single character `c`. -/
def strContainsChar (s : String) (c : Char) : Bool :=
  s.data.contains c

/-! ## Attendance records and deduplication
Model of the record dictionaries built by
`parse_and_save_attendance_robust` (srm_scrapper.py lines 1131-1174):
every record carries exactly the eight fields below, the five text
fields defaulting to "" and the numeric fields to 0.  Percentages are
modelled as rationals. -/

/-- A Python value held in an attendance-record field.  The records
built by the scraper never hold None, so only strings and numbers
appear. -/
inductive PyVal where
  | str (s : String)
  | int (n : Int)
  | float (q : Rat)
deriving DecidableEq, Repr

/-- The test `value is not None and value != ""` from
`_record_completeness` (line 1219).  In Python a number never equals
the empty string, so numeric fields always pass. -/
def PyVal.nonEmptyVal : PyVal → Bool
  | .str s => s ≠ ""
  | .int _ => true
  | .float _ => true

/-- An attendance record as built by `parse_and_save_attendance_robust`
(lines 1136-1145). -/
structure AttendanceRecord where
  course_code : String
  course_title : String
  category : String
  faculty : String
  slot : String
  hours_conducted : Int
  hours_absent : Int
  attendance_percentage : Rat
deriving DecidableEq, Repr

/-- The `record.items()` view used by `_record_completeness`. -/
def AttendanceRecord.items (r : AttendanceRecord) : List PyVal :=
  [.str r.course_code, .str r.course_title, .str r.category, .str r.faculty,
   .str r.slot, .int r.hours_conducted, .int r.hours_absent,
   .float r.attendance_percentage]

/-- `_record_completeness` (lines 1215-1221): the count of fields whose
value is neither None nor the empty string. -/
def record_completeness (r : AttendanceRecord) : Nat :=
  (r.items.filter PyVal.nonEmptyVal).length

/-- The dictionary key used by the dedup loop (line 1179): the pair
`(course_code, category)` when the category is truthy (non-empty),
otherwise the bare course code.  A Python tuple key never equals a
string key, which the two constructors reflect. -/
inductive DedupKey where
  | pair (code category : String)
  | single (code : String)
deriving DecidableEq, Repr

/-- `key = (record["course_code"], record["category"]) if record["category"] else record["course_code"]`. -/
def recordKey (r : AttendanceRecord) : DedupKey :=
  if r.category ≠ "" then .pair r.course_code r.category else .single r.course_code

/-- Association-list lookup, mirroring Python dict access (first match;
the lists we build have unique keys). -/
def alistGet? {α β : Type} [DecidableEq α] : List (α × β) → α → Option β
  | [], _ => none
  | (k, v) :: t, k2 => if k = k2 then some v else alistGet? t k2

/-- Association-list assignment mirroring Python dict assignment:
replace in place if the key is present, otherwise append (insertion
order is preserved, as for a Python dict). -/
def alistSet {α β : Type} [DecidableEq α] : List (α × β) → α → β → List (α × β)
  | [], k, v => [(k, v)]
  | (k1, v1) :: t, k, v => if k1 = k then (k1, v) :: t else (k1, v1) :: alistSet t k v

/-- One iteration of the dedup loop (lines 1178-1182):
`if key not in deduplicated_records or completeness(record) > completeness(deduplicated_records[key]):
  deduplicated_records[key] = record`. -/
def dedupStep (m : List (DedupKey × AttendanceRecord)) (r : AttendanceRecord) :
    List (DedupKey × AttendanceRecord) :=
  match alistGet? m (recordKey r) with
  | none => alistSet m (recordKey r) r
  | some old =>
    if record_completeness r > record_completeness old then alistSet m (recordKey r) r else m

/-- The dedup step of `parse_and_save_attendance_robust`
(lines 1176-1184): fold the records into a dict and take
`list(deduplicated_records.values())`. -/
def deduplicate_records (rs : List AttendanceRecord) : List AttendanceRecord :=
  (rs.foldl dedupStep []).map Prod.snd

/-- Choice between an incumbent record and a newcomer with the loop's
strict comparison: the newcomer wins only with strictly higher
completeness. -/
def betterOf (b r : AttendanceRecord) : AttendanceRecord :=
  if record_completeness r > record_completeness b then r else b

/-- Folding step on an optional incumbent. -/
def combineRec (o : Option AttendanceRecord) (r : AttendanceRecord) : Option AttendanceRecord :=
  match o with
  | none => some r
  | some b => some (betterOf b r)

/-! ### Association-list lemmas -/

theorem alistGet?_alistSet {α β : Type} [DecidableEq α] (m : List (α × β)) (k k2 : α) (v : β) :
    alistGet? (alistSet m k v) k2 = if k = k2 then some v else alistGet? m k2 := by
  induction m with
  | nil => simp [alistSet, alistGet?]
  | cons p t ih =>
    obtain ⟨k1, v1⟩ := p
    by_cases h1 : k1 = k
    · subst h1
      by_cases h2 : k1 = k2 <;> simp [alistSet, alistGet?, h2]
    · by_cases h2 : k1 = k2
      · subst h2
        have hk : ¬ k = k1 := fun h => h1 h.symm
        simp [alistSet, alistGet?, h1, hk]
      · simp [alistSet, alistGet?, h1, h2, ih]

theorem alistGet?_eq_none {α β : Type} [DecidableEq α] (m : List (α × β)) (k : α)
    (h : k ∉ m.map Prod.fst) : alistGet? m k = none := by
  induction m with
  | nil => rfl
  | cons p t ih =>
    obtain ⟨k1, v1⟩ := p
    have h1 : ¬ k1 = k := by
      intro hk; exact h (by simp [hk])
    have h2 : k ∉ t.map Prod.fst := fun hk => h (by simp [hk])
    simp [alistGet?, h1, ih h2]

theorem alistGet?_append_of_none {α β : Type} [DecidableEq α] (m1 m2 : List (α × β)) (k : α)
    (h : alistGet? m1 k = none) : alistGet? (m1 ++ m2) k = alistGet? m2 k := by
  induction m1 with
  | nil => rfl
  | cons p t ih =>
    obtain ⟨k1, v1⟩ := p
    by_cases h1 : k1 = k
    · simp [alistGet?, h1] at h
    · simp only [alistGet?, if_neg h1] at h
      simp [alistGet?, h1, ih h]

theorem alistSet_of_get_none {α β : Type} [DecidableEq α] (m : List (α × β)) (k : α) (v : β)
    (h : alistGet? m k = none) : alistSet m k v = m ++ [(k, v)] := by
  induction m with
  | nil => rfl
  | cons p t ih =>
    obtain ⟨k1, v1⟩ := p
    by_cases h1 : k1 = k
    · simp [alistGet?, h1] at h
    · simp only [alistGet?, if_neg h1] at h
      simp [alistSet, h1, ih h]

theorem alistSet_map_fst {α β : Type} [DecidableEq α] (m : List (α × β)) (k : α) (v : β) :
    (alistSet m k v).map Prod.fst =
      if k ∈ m.map Prod.fst then m.map Prod.fst else m.map Prod.fst ++ [k] := by
  induction m with
  | nil => simp [alistSet]
  | cons p t ih =>
    obtain ⟨k1, v1⟩ := p
    by_cases h1 : k1 = k
    · subst h1; simp [alistSet]
    · have h1s : ¬ k = k1 := fun h => h1 h.symm
      by_cases h2 : k ∈ t.map Prod.fst <;>
        simp [alistSet, h1, ih, h2, List.mem_cons, h1s]

theorem mem_alistSet {α β : Type} [DecidableEq α] (m : List (α × β)) (k : α) (v : β) :
    ∀ p ∈ alistSet m k v, p ∈ m ∨ p = (k, v) := by
  induction m with
  | nil =>
    intro p hp
    simp only [alistSet, List.mem_singleton] at hp
    right; exact hp
  | cons q t ih =>
    obtain ⟨k1, v1⟩ := q
    intro p hp
    by_cases h1 : k1 = k
    · simp only [alistSet, if_pos h1, List.mem_cons] at hp
      rcases hp with he | hp
      · right; rw [he, h1]
      · left; exact List.mem_cons_of_mem _ hp
    · simp only [alistSet, if_neg h1, List.mem_cons] at hp
      rcases hp with he | hp
      · left; rw [he]; exact List.mem_cons_self _ _
      · rcases ih p hp with hm | he
        · left; exact List.mem_cons_of_mem _ hm
        · right; exact he

/-! ### Deduplication: lookup characterization -/

/-- Key consistency and key uniqueness of the dedup dictionary. -/
def mapWF (m : List (DedupKey × AttendanceRecord)) : Prop :=
  (m.map Prod.fst).Nodup ∧ ∀ p ∈ m, recordKey p.2 = p.1

theorem mapWF_alistSet (m : List (DedupKey × AttendanceRecord)) (k : DedupKey)
    (v : AttendanceRecord) (h : mapWF m) (hv : recordKey v = k) : mapWF (alistSet m k v) := by
  obtain ⟨hnd, hcons⟩ := h
  constructor
  · rw [alistSet_map_fst]
    by_cases h2 : k ∈ m.map Prod.fst
    · simpa [h2] using hnd
    · simp only [h2, if_neg]
      simp [List.nodup_append, hnd, h2]
  · intro p hp
    rcases mem_alistSet m k v p hp with hm | he
    · exact hcons p hm
    · subst he; exact hv

theorem mapWF_dedupStep (m : List (DedupKey × AttendanceRecord)) (r : AttendanceRecord)
    (h : mapWF m) : mapWF (dedupStep m r) := by
  unfold dedupStep
  cases alistGet? m (recordKey r) with
  | none => exact mapWF_alistSet m _ r h rfl
  | some old =>
    by_cases hc : record_completeness r > record_completeness old
    · simpa [hc] using mapWF_alistSet m _ r h rfl
    · simpa [hc] using h

theorem mapWF_foldl (rs : List AttendanceRecord) :
    ∀ m, mapWF m → mapWF (rs.foldl dedupStep m) := by
  induction rs with
  | nil => intro m h; exact h
  | cons r t ih => intro m h; exact ih _ (mapWF_dedupStep m r h)

theorem alistGet?_dedupStep (m : List (DedupKey × AttendanceRecord)) (r : AttendanceRecord)
    (k : DedupKey) :
    alistGet? (dedupStep m r) k =
      if recordKey r = k then combineRec (alistGet? m k) r else alistGet? m k := by
  unfold dedupStep
  by_cases hk : recordKey r = k
  · rw [if_pos hk]
    subst hk
    cases hm : alistGet? m (recordKey r) with
    | none => simp [alistGet?_alistSet, combineRec, hm]
    | some old =>
      by_cases hc : record_completeness r > record_completeness old
      · simp [hc, alistGet?_alistSet, combineRec, betterOf, hm]
      · simp [hc, combineRec, betterOf, hm]
  · rw [if_neg hk]
    cases hm : alistGet? m (recordKey r) with
    | none => simp [alistGet?_alistSet, hk, hm]
    | some old =>
      by_cases hc : record_completeness r > record_completeness old
      · simp [hc, alistGet?_alistSet, hk]
      · simp [hc]

theorem alistGet?_foldl_dedupStep (rs : List AttendanceRecord) :
    ∀ (m : List (DedupKey × AttendanceRecord)) (k : DedupKey),
    alistGet? (rs.foldl dedupStep m) k =
      (rs.filter (fun r => decide (recordKey r = k))).foldl combineRec (alistGet? m k) := by
  induction rs with
  | nil => intro m k; rfl
  | cons r t ih =>
    intro m k
    simp only [List.foldl_cons, List.filter_cons]
    by_cases hk : recordKey r = k
    · simp [hk, ih, alistGet?_dedupStep]
    · simp [hk, ih, alistGet?_dedupStep]

theorem values_filter_eq (m : List (DedupKey × AttendanceRecord)) (k : DedupKey)
    (h : mapWF m) :
    (m.map Prod.snd).filter (fun x => decide (recordKey x = k)) =
      (alistGet? m k).toList := by
  induction m with
  | nil => rfl
  | cons p t ih =>
    obtain ⟨k1, r1⟩ := p
    obtain ⟨hnd, hcons⟩ := h
    have hk1 : recordKey r1 = k1 := hcons (k1, r1) (by simp)
    have hwt : mapWF t :=
      ⟨(List.nodup_cons.mp hnd).2, fun q hq => hcons q (by simp [hq])⟩
    by_cases hx : k1 = k
    · subst hx
      have hnot : k1 ∉ t.map Prod.fst := (List.nodup_cons.mp hnd).1
      have h128 : alistGet? t k1 = none := alistGet?_eq_none _ _ hnot
      have hniL : (t.map Prod.snd).filter (fun x => decide (recordKey x = k1)) = [] := by
        rw [ih hwt, h128]; rfl
      simp [alistGet?, hk1, hniL]
    · have hne : ¬ recordKey r1 = k := by rw [hk1]; exact hx
      simp [alistGet?, hx, hne, ih hwt]

/-! ### First maximal element of a fold -/

theorem foldl_combineRec_some (t : List AttendanceRecord) (b : AttendanceRecord) :
    t.foldl combineRec (some b) = some (t.foldl betterOf b) := by
  induction t generalizing b with
  | nil => rfl
  | cons a t ih => simp [List.foldl_cons, combineRec, ih]

theorem foldl_betterOf_spec (t : List AttendanceRecord) (b : AttendanceRecord) :
    (t.foldl betterOf b = b ∧ ∀ x ∈ t, record_completeness x ≤ record_completeness b) ∨
    (∃ (i : Nat) (x : AttendanceRecord), t[i]? = some x ∧ t.foldl betterOf b = x ∧
      record_completeness b < record_completeness x ∧
      (∀ y ∈ t, record_completeness y ≤ record_completeness x) ∧
      (∀ j y, j < i → t[j]? = some y → record_completeness y < record_completeness x)) := by
  induction t generalizing b with
  | nil => left; exact ⟨rfl, by simp⟩
  | cons a t ih =>
    by_cases hab : record_completeness a > record_completeness b
    · have hba : (a :: t).foldl betterOf b = t.foldl betterOf a := by
        simp [List.foldl_cons, betterOf, hab]
      rcases ih a with ⟨heq, hle⟩ | ⟨i, x, hget, heq, hlt, hle, hbef⟩
      · right
        refine ⟨0, a, by simp, by rw [hba, heq], hab, ?_, ?_⟩
        · intro y hy
          rcases List.mem_cons.mp hy with rfl | hy
          · exact le_refl _
          · exact hle y hy
        · intro j y hj
          omega
      · right
        refine ⟨i + 1, x, by simpa using hget, by rw [hba, heq], ?_, ?_, ?_⟩
        · exact Nat.lt_trans hab hlt
        · intro y hy
          rcases List.mem_cons.mp hy with rfl | hy
          · exact Nat.le_of_lt hlt
          · exact hle y hy
        · intro j y hj hjy
          cases j with
          | zero =>
            simp at hjy
            subst hjy; exact hlt
          | succ j =>
            simp at hjy
            exact hbef j y (by omega) hjy
    · have hba : (a :: t).foldl betterOf b = t.foldl betterOf b := by
        simp [List.foldl_cons, betterOf, hab]
      have haleb : record_completeness a ≤ record_completeness b := Nat.le_of_not_lt hab
      rcases ih b with ⟨heq, hle⟩ | ⟨i, x, hget, heq, hlt, hle, hbef⟩
      · left
        refine ⟨by rw [hba, heq], ?_⟩
        intro y hy
        rcases List.mem_cons.mp hy with rfl | hy
        · exact haleb
        · exact hle y hy
      · right
        refine ⟨i + 1, x, by simpa using hget, by rw [hba, heq], hlt, ?_, ?_⟩
        · intro y hy
          rcases List.mem_cons.mp hy with rfl | hy
          · exact Nat.le_trans haleb (Nat.le_of_lt hlt)
          · exact hle y hy
        · intro j y hj hjy
          cases j with
          | zero =>
            simp at hjy
            subst hjy; exact Nat.lt_of_le_of_lt haleb hlt
          | succ j =>
            simp at hjy
            exact hbef j y (by omega) hjy

/-- C1: for every record list with duplicate (course_code, category) keys,
the dedup step of parse_and_save_attendance_robust retains exactly one
record per key, namely the first-encountered record of maximal
_record_completeness among the records with that key. -/
theorem dedup_keeps_first_most_complete (rs : List AttendanceRecord) (k : DedupKey)
    (h : rs.filter (fun r => decide (recordKey r = k)) ≠ []) :
    ∃ (r : AttendanceRecord) (i : Nat),
      (deduplicate_records rs).filter (fun x => decide (recordKey x = k)) = [r] ∧
      (rs.filter (fun x => decide (recordKey x = k)))[i]? = some r ∧
      (∀ x ∈ rs.filter (fun x => decide (recordKey x = k)),
        record_completeness x ≤ record_completeness r) ∧
      (∀ j x, j < i → (rs.filter (fun x => decide (recordKey x = k)))[j]? = some x →
        record_completeness x < record_completeness r) := by
  have hwf : mapWF (rs.foldl dedupStep []) := mapWF_foldl rs [] ⟨by simp, by simp⟩
  have hvals : (deduplicate_records rs).filter (fun x => decide (recordKey x = k)) =
      (alistGet? (rs.foldl dedupStep []) k).toList := values_filter_eq _ _ hwf
  have hlook : alistGet? (rs.foldl dedupStep []) k =
      (rs.filter (fun r => decide (recordKey r = k))).foldl combineRec none := by
    simpa [alistGet?] using alistGet?_foldl_dedupStep rs [] k
  cases hgl : rs.filter (fun r => decide (recordKey r = k)) with
  | nil => exact absurd hgl h
  | cons a t =>
    have hfold : (rs.filter (fun r => decide (recordKey r = k))).foldl combineRec none =
        some (t.foldl betterOf a) := by
      rw [hgl]
      simp only [List.foldl_cons, combineRec]
      exact foldl_combineRec_some t a
    rcases foldl_betterOf_spec t a with ⟨heq, hle⟩ | ⟨i, x, hget, heq, hlt, hle, hbef⟩
    · refine ⟨a, 0, ?_, ?_, ?_, ?_⟩
      · rw [hvals, hlook, hfold, heq]; rfl
      · simp
      · intro y hy
        rcases List.mem_cons.mp hy with rfl | hy
        · exact le_refl _
        · exact hle y hy
      · intro j y hj
        omega
    · refine ⟨x, i + 1, ?_, ?_, ?_, ?_⟩
      · rw [hvals, hlook, hfold, heq]; rfl
      · simpa using hget
      · intro y hy
        rcases List.mem_cons.mp hy with rfl | hy
        · exact Nat.le_of_lt hlt
        · exact hle y hy
      · intro j y hj hjy
        cases j with
        | zero =>
          simp at hjy
          subst hjy; exact hlt
        | succ j =>
          simp at hjy
          exact hbef j y (by omega) hjy

/-! ### Idempotence of deduplication (C9) -/

theorem foldl_dedupStep_fresh (l : List AttendanceRecord) :
    ∀ m, (∀ r ∈ l, alistGet? m (recordKey r) = none) → (l.map recordKey).Nodup →
    l.foldl dedupStep m = m ++ l.map (fun r => (recordKey r, r)) := by
  induction l with
  | nil => intro m _ _; simp
  | cons r t ih =>
    intro m hm hnd
    have h1 : alistGet? m (recordKey r) = none := hm r (by simp)
    have hnd2 : recordKey r ∉ t.map recordKey ∧ (t.map recordKey).Nodup := by
      rw [List.map_cons] at hnd
      exact List.nodup_cons.mp hnd
    have step : dedupStep m r = m ++ [(recordKey r, r)] := by
      unfold dedupStep
      rw [h1]
      exact alistSet_of_get_none _ _ _ h1
    rw [List.foldl_cons, step,
      ih (m ++ [(recordKey r, r)]) ?_ hnd2.2]
    · simp
    · intro x hx
      have hxm : alistGet? m (recordKey x) = none := hm x (by simp [hx])
      rw [alistGet?_append_of_none _ _ _ hxm]
      have hne : ¬ recordKey r = recordKey x := by
        intro he
        exact hnd2.1 (he ▸ List.mem_map_of_mem recordKey hx)
      simp [alistGet?, hne]

theorem dedup_of_nodup_keys (l : List AttendanceRecord)
    (h : (l.map recordKey).Nodup) : deduplicate_records l = l := by
  unfold deduplicate_records
  rw [foldl_dedupStep_fresh l [] (fun r _ => rfl) h]
  rw [List.nil_append, List.map_map]
  rw [show (Prod.snd ∘ fun r : AttendanceRecord => (recordKey r, r)) = id from rfl]
  exact List.map_id l

theorem keys_nodup_of_dedup (rs : List AttendanceRecord) :
    ((deduplicate_records rs).map recordKey).Nodup := by
  have hwf := mapWF_foldl rs [] ⟨by simp, by simp⟩
  obtain ⟨hnd, hcons⟩ := hwf
  unfold deduplicate_records
  rw [List.map_map]
  have he : (rs.foldl dedupStep []).map (recordKey ∘ Prod.snd) =
      (rs.foldl dedupStep []).map Prod.fst := by
    apply List.map_congr_left
    intro p hp
    exact hcons p hp
  rw [he]
  exact hnd

/-- C9: the attendance dedup step is idempotent — applying it to an
already-deduplicated record list returns that list unchanged, in the
same order. -/
theorem dedup_idempotent (rs : List AttendanceRecord) :
    deduplicate_records (deduplicate_records rs) = deduplicate_records rs :=
  dedup_of_nodup_keys _ (keys_nodup_of_dedup rs)

/-- Witness records for C1 sharing the key ("CS101", "Theory"); the
second record has strictly more non-empty fields. -/
def sampleRec1 : AttendanceRecord :=
  { course_code := "CS101", course_title := "", category := "Theory", faculty := "",
    slot := "", hours_conducted := 10, hours_absent := 2, attendance_percentage := 80 }

def sampleRec2 : AttendanceRecord :=
  { course_code := "CS101", course_title := "Programming", category := "Theory",
    faculty := "Dr. A", slot := "B", hours_conducted := 10, hours_absent := 2,
    attendance_percentage := 80 }

/-- Witness for C1: the dedup theorem applied to a concrete record
list with a duplicate key. -/
theorem dedup_keeps_first_most_complete_check :
    ([sampleRec1, sampleRec2].filter
        (fun r => decide (recordKey r = DedupKey.pair "CS101" "Theory")) ≠ []) ∧
    (∃ (r : AttendanceRecord) (i : Nat),
      (deduplicate_records [sampleRec1, sampleRec2]).filter
        (fun x => decide (recordKey x = DedupKey.pair "CS101" "Theory")) = [r] ∧
      ([sampleRec1, sampleRec2].filter
        (fun x => decide (recordKey x = DedupKey.pair "CS101" "Theory")))[i]? = some r ∧
      (∀ x ∈ [sampleRec1, sampleRec2].filter
        (fun x => decide (recordKey x = DedupKey.pair "CS101" "Theory")),
        record_completeness x ≤ record_completeness r) ∧
      (∀ j x, j < i →
        ([sampleRec1, sampleRec2].filter
          (fun x => decide (recordKey x = DedupKey.pair "CS101" "Theory")))[j]? = some x →
        record_completeness x < record_completeness r)) :=
  ⟨by decide,
   dedup_keeps_first_most_complete [sampleRec1, sampleRec2]
     (DedupKey.pair "CS101" "Theory") (by decide)⟩

/-! ## Timetable reconciliation (merge_timetable_with_courses) -/

/-- The course_info dict built at lines 1682-1689 (the Python key
"type" is the field ctype here). -/
structure CourseInfo where
  title : String
  faculty : String
  room : String
  code : String
  ctype : String
  gcr_code : String
deriving DecidableEq, Repr

/-- A scraped timetable row (lines 1606-1615). -/
structure CourseRow where
  course_code : String
  course_title : String
  slot : String
  gcr_code : String
  faculty_name : String
  course_type : String
  room_no : String
deriving DecidableEq, Repr

def courseInfoOf (c : CourseRow) : CourseInfo :=
  { title := pyStrip c.course_title, faculty := pyStrip c.faculty_name,
    room := pyStrip c.room_no, code := pyStrip c.course_code,
    ctype := pyStrip c.course_type, gcr_code := pyStrip c.gcr_code }

/-- re.findall(r'(P\d+)-', s) (line 1703): left-to-right non-overlapping
matches of a 'P', a maximal non-empty digit run and a '-'; the captured
group keeps the 'P' and the digits. -/
def scanPCodes : List Char → List (List Char)
  | [] => []
  | c :: rest =>
    if c = 'P' ∧ rest.takeWhile Char.isDigit ≠ [] ∧
        (rest.drop (rest.takeWhile Char.isDigit).length).head? = some '-' then
      ('P' :: rest.takeWhile Char.isDigit) ::
        scanPCodes ((rest.drop (rest.takeWhile Char.isDigit).length).drop 1)
    else scanPCodes rest
termination_by l => l.length
decreasing_by
  · simp only [List.length_drop, List.length_cons]
    omega
  · simp only [List.length_cons]
    omega

/-- re.findall(r'(\d+)-', s) (line 1709): left-to-right non-overlapping
matches of a maximal non-empty digit run followed by '-'. -/
def scanNums : List Char → List (List Char)
  | [] => []
  | c :: rest =>
    if Char.isDigit c then
      if (rest.drop (rest.takeWhile Char.isDigit).length).head? = some '-' then
        (c :: rest.takeWhile Char.isDigit) ::
          scanNums ((rest.drop (rest.takeWhile Char.isDigit).length).drop 1)
      else scanNums (rest.drop (rest.takeWhile Char.isDigit).length)
    else scanNums rest
termination_by l => l.length
decreasing_by
  · simp only [List.length_drop, List.length_cons]
    omega
  · simp only [List.length_drop, List.length_cons]
    omega
  · simp only [List.length_cons]
    omega

/-- re.match(r'(P)(\d+)-', s) (line 1706): when s starts with 'P', a
non-empty digit run and '-', succeed and return the remainder. -/
def matchPNumDash : List Char → Option (List Char)
  | [] => none
  | c :: rest =>
    if c = 'P' ∧ rest.takeWhile Char.isDigit ≠ [] ∧
        (rest.drop (rest.takeWhile Char.isDigit).length).head? = some '-' then
      some ((rest.drop (rest.takeWhile Char.isDigit).length).drop 1)
    else none

/-- One start position of re.search(r'P\d+-P\d+-', s) (line 1702). -/
def matchPPAt (l : List Char) : Bool :=
  match matchPNumDash l with
  | some r => (matchPNumDash r).isSome
  | none => false

/-- re.search(r'P\d+-P\d+-', s): some position matches. -/
def searchPP : List Char → Bool
  | [] => false
  | c :: rest => matchPPAt (c :: rest) || searchPP rest

/-- Lines 1698-1713: parse a dash-containing slot string into its
normalized per-period codes (each with a trailing '-'). -/
def parseLabSlotCodes (slot : String) : List String :=
  let codes :=
    if searchPP slot.data then scanPCodes slot.data
    else
      match matchPNumDash slot.data with
      | some _ => (scanNums slot.data).map (fun ds => 'P' :: ds)
      | none => []
  codes.map (fun cd => (cd ++ ['-']).asString)

/-- Lines 1671-1727: build the enhanced slot-code → CourseInfo mapping
from the scraped course rows. -/
def buildEnhancedMapping (course_data : List CourseRow) : List (String × CourseInfo) :=
  course_data.foldl (fun m c =>
    let slot := pyStrip c.slot
    if slot = "" then m
    else
      let ci := courseInfoOf c
      if strContainsChar slot '/' ∧ ¬ strContainsChar slot '-' then
        (((pySplit '/' slot).map pyStrip).filter (fun p => p ≠ "")).foldl
          (fun m p => alistSet m p ci) m
      else if strContainsChar slot '-' then
        alistSet ((parseLabSlotCodes slot).foldl (fun m code => alistSet m code ci) m) slot ci
      else alistSet m slot ci) []

/-- is_empty_slot (lines 1630-1636). -/
def is_empty_slot (slot_code : String) : Bool :=
  if pyStrip slot_code = "" then true
  else if pyLower slot_code = "empty" ∨ pyLower slot_code = "break" ∨
      pyLower slot_code = "-" then true
  else false

/-- A canonical (official) timetable: day → ordered (time-range → code),
in dict insertion order. -/
abbrev OfficialTT := List (String × List (String × String))

/-- Python set.add, keeping first-insertion order (only membership is
ever used). -/
def setAdd (s : List String) (x : String) : List String :=
  if x ∈ s then s else s ++ [x]

/-- Lines 1733-1744: break codes are canonical codes (or '/'-parts of
canonical codes) that have no entry in the slot mapping. -/
def breakCodes (tt : OfficialTT) (m : List (String × CourseInfo)) : List String :=
  tt.foldl (fun s day =>
    day.2.foldl (fun s cell =>
      let code := cell.2
      if strContainsChar code '/' then
        (pySplit '/' code).foldl (fun s part0 =>
          let part := pyStrip part0
          if part ≠ "" ∧ alistGet? m part = none then setAdd s part else s) s
      else if code ≠ "" ∧ alistGet? m code = none then setAdd s code else s) s) []

/-- One merged timetable cell.  The dict built at lines 1752-1794
always has exactly the keys time, original_slot, courses, display,
which are this structure's four fields. -/
structure MergedCell where
  time : String
  original_slot : String
  courses : List CourseInfo
  display : String
deriving DecidableEq, Repr

/-- The body of the merge loop for one cell (lines 1751-1794). -/
def mergeCell (m : List (String × CourseInfo)) (bset : List String)
    (time_slot slot_code : String) : MergedCell :=
  let init : MergedCell :=
    { time := time_slot, original_slot := slot_code, courses := [], display := "" }
  if is_empty_slot slot_code then init
  else if strContainsChar slot_code '/' then
    let parts := ((pySplit '/' slot_code).map pyStrip).filter (fun p => p ≠ "")
    let matched := parts.filterMap (fun p => alistGet? m p)
    if matched ≠ [] then
      { display := pyJoin " / " (matched.map CourseInfo.title) ++ " (" ++ time_slot ++ ")",
        original_slot := slot_code, courses := matched, time := time_slot }
    else init
  else
    match alistGet? m slot_code with
    | some ci =>
      { display := ci.title ++ " (" ++ time_slot ++ ")",
        original_slot := slot_code, courses := [ci], time := time_slot }
    | none =>
      { display := if slot_code ∈ bset ∨ slot_code = "X" then "" else slot_code,
        original_slot := slot_code, courses := [], time := time_slot }

/-- Lines 1746-1795, parameterized by the selected official timetable
(the code's local variable official_tt). -/
def mergeOfficial (course_data : List CourseRow) (tt : OfficialTT) :
    List (String × List (String × MergedCell)) :=
  let m := buildEnhancedMapping course_data
  let bset := breakCodes tt m
  tt.map (fun day => (day.1, day.2.map (fun cell => (cell.1, mergeCell m bset cell.1 cell.2))))

/-- The twelve period time strings (slot_times, lines 113-126), in
order of the keys "1".."12". -/
def slot_times : List String :=
  ["08:00-08:50", "08:50-09:40", "09:45-10:35", "10:40-11:30", "11:35-12:25",
   "12:30-01:20", "01:25-02:15", "02:20-03:10", "03:10-04:00", "04:00-04:50",
   "04:50-05:30", "05:30-06:10"]

/-- One day row of a hard-coded timetable: the dict maps the twelve
period times, in order, to the given codes. -/
def dayRow (codes : List String) : List (String × String) := slot_times.zip codes

/-- batch_1_timetable (lines 129-155). -/
def batch_1_timetable : OfficialTT :=
  [("Day 1", dayRow ["A", "A/X", "F/X", "F", "G", "P6-", "P7-", "P8-", "P9-", "P10-",
     "L11", "L11"]),
   ("Day 2", dayRow ["P11-", "P12-/X", "P13-/X", "P14-", "P15-", "B", "B", "G", "G", "A",
     "L21", "L22"]),
   ("Day 3", dayRow ["C", "C/X", "A/X", "D", "B", "P26-", "P27-", "P28-", "P29-", "P30-",
     "L31", "L32"]),
   ("Day 4", dayRow ["P31-", "P32-/X", "P33-/X", "P34-", "P35-", "D", "D", "B", "E", "C",
     "L41", "L42"]),
   ("Day 5", dayRow ["E", "E/X", "C/X", "F", "D", "P46-", "P47-", "P48-", "P49-", "P50-",
     "L51", "L52"])]

/-- batch_2_timetable (lines 157-183). -/
def batch_2_timetable : OfficialTT :=
  [("Day 1", dayRow ["P1-", "P2-/X", "P3-/X", "P4-", "P5-", "A", "A", "F", "F", "G",
     "L11", "L12"]),
   ("Day 2", dayRow ["B", "B/X", "G/X", "G", "A", "P16-", "P17-", "P18-", "P19-", "P20-",
     "L21", "L22"]),
   ("Day 3", dayRow ["P21-", "P22-/X", "P23-/X", "P24-", "P25-", "C", "C", "A", "D", "B",
     "L31", "L32"]),
   ("Day 4", dayRow ["D", "D/X", "B/X", "E", "C", "P36-", "P37-", "P38-", "P39-", "P40-",
     "L41", "L42"]),
   ("Day 5", dayRow ["P41-", "P42-/X", "P43-/X", "P44-", "P45-", "E", "E", "C", "F", "D",
     "L51", "L52"])]

/-- re.search(r'(\d+)', s) (line 1653): the leftmost maximal digit run. -/
def firstDigitRun : List Char → Option (List Char)
  | [] => none
  | c :: rest =>
    if Char.isDigit c then some (c :: rest.takeWhile Char.isDigit)
    else firstDigitRun rest

/-- The result dict of merge_timetable_with_courses: the error dict
{"status": "error", "msg": …} (lines 1660, 1669) or the success dict
(lines 1798-1804) carrying the batch, the merged timetable, and the
echoed personal_details and course_data. -/
inductive MergeResult where
  | error (msg : String)
  | success (batch : String) (merged : List (String × List (String × MergedCell)))
      (personal_details : Option (List (String × String))) (course_data : List CourseRow)
deriving DecidableEq, Repr

def MergeResult.status : MergeResult → String
  | .error _ => "error"
  | .success _ _ _ _ => "success"

/-- Lines 1642-1655: determine the student batch from the explicit
argument or from the personal-details dict (an absent or empty dict is
falsy, as in Python). -/
def resolveStudentBatch (batch_input : Option String)
    (personal_details : Option (List (String × String))) : Option String :=
  if batch_input = some "1" ∨ batch_input = some "2" then
    some ("Batch " ++ batch_input.getD "")
  else
    match personal_details with
    | none => none
    | some pd =>
      if pd = [] then none
      else
        let raw_batch := pyStrip ((alistGet? pd "Batch").getD "")
        if raw_batch = "1" ∨ raw_batch = "2" then some ("Batch " ++ raw_batch)
        else
          match firstDigitRun raw_batch.data with
          | some ds =>
            if ds.asString = "1" ∨ ds.asString = "2" then some ("Batch " ++ ds.asString)
            else none
          | none => none

/-- merge_timetable_with_courses (lines 1638-1804). -/
def merge_timetable_with_courses (course_data : List CourseRow)
    (batch_input : Option String)
    (personal_details : Option (List (String × String))) : MergeResult :=
  match resolveStudentBatch batch_input personal_details with
  | none => .error "Could not auto-detect batch (must be 1 or 2)"
  | some student_batch =>
    if strContainsChar student_batch '1' then
      .success student_batch (mergeOfficial course_data batch_1_timetable)
        personal_details course_data
    else if strContainsChar student_batch '2' then
      .success student_batch (mergeOfficial course_data batch_2_timetable)
        personal_details course_data
    else .error ("Invalid batch: " ++ student_batch)

/-- Lines 1965-1995 of run_timetable_scraper: batch determination with
fallbacks — page parse, then URL, then profile, then the hard default
"1".  A falsy (absent) outcome of a strategy is `none`. -/
def run_timetable_batch_fallback (page_batch url_batch profile_batch : Option String) :
    String :=
  match page_batch with
  | some b => b
  | none =>
    match url_batch with
    | some b => b
    | none =>
      match profile_batch with
      | some b => b
      | none => "1"

/-- Look up one cell of a merged timetable result. -/
def mergedCell? (r : MergeResult) (day t : String) : Option MergedCell :=
  match r with
  | .error _ => none
  | .success _ merged _ _ =>
    match alistGet? merged day with
    | some cells => alistGet? cells t
    | none => none

/-! ### The multi-period lab slot grammar (C2) -/

/-- One "P<digits>-" block of the repeated form. -/
def pBlock (d : List Char) : List Char := 'P' :: d ++ ['-']

/-- A lab slot written with repeated prefixes, e.g. "P37-P38-P39-". -/
def repeatedLabSlot (ds : List (List Char)) : String := ((ds.map pBlock).flatten).asString

/-- A lab slot written in compact form, e.g. "P37-38-39-". -/
def compactLabSlot (d0 : List Char) (rest : List (List Char)) : String :=
  ('P' :: d0 ++ ['-'] ++ ((rest.map (fun d => d ++ ['-'])).flatten)).asString

/-- The normalized per-period codes "P37-", "P38-", …. -/
def normalizedPeriodCodes (ds : List (List Char)) : List String :=
  ds.map (fun d => ('P' :: d ++ ['-']).asString)

theorem takeWhile_append_not (p : Char → Bool) (l1 : List Char) (h1 : ∀ c ∈ l1, p c)
    (b : Char) (hb : ¬ p b) (l2 : List Char) :
    (l1 ++ b :: l2).takeWhile p = l1 := by
  induction l1 with
  | nil => simp [List.takeWhile_cons, hb]
  | cons a t ih =>
    have ha : p a := h1 a (by simp)
    simp [List.takeWhile_cons, ha, ih (fun c hc => h1 c (by simp [hc]))]

theorem dropWhile_eq_self_of_all (p : Char → Bool) (l : List Char) (h : ∀ c ∈ l, ¬ p c) :
    l.dropWhile p = l := by
  cases l with
  | nil => rfl
  | cons a t =>
    have ha := h a (by simp)
    simp [List.dropWhile_cons, ha]

theorem string_ne_empty_of_data (s : String) (h : s.data ≠ []) : s ≠ "" := by
  intro he; rw [he] at h; exact h rfl

theorem pyStrip_eq_self (s : String) (h : ∀ c ∈ s.data, ¬ Char.isWhitespace c) :
    pyStrip s = s := by
  unfold pyStrip
  rw [dropWhile_eq_self_of_all _ _ h,
    dropWhile_eq_self_of_all _ _ (fun c hc => h c (List.mem_reverse.mp hc)),
    List.reverse_reverse]
  cases s; rfl

theorem not_whitespace_of_digit (c : Char) (h : Char.isDigit c) : ¬ Char.isWhitespace c := by
  intro hw
  have hcases : ((c = ' ' ∨ c = '\t') ∨ c = '\r') ∨ c = '\n' := by
    simpa [Char.isWhitespace] using hw
  rcases hcases with ((h1 | h1) | h1) | h1 <;> rw [h1] at h <;> exact absurd h (by decide)

theorem digit_ne_P (c : Char) (h : Char.isDigit c) : c ≠ 'P' := by
  intro he; rw [he] at h; exact absurd h (by decide)

theorem alistGet?_foldl_set {α β : Type} [DecidableEq α] (l : List α) (v : β) :
    ∀ (m : List (α × β)) (k : α),
      alistGet? (l.foldl (fun m2 k2 => alistSet m2 k2 v) m) k =
        if k ∈ l then some v else alistGet? m k := by
  induction l with
  | nil => intro m k; simp
  | cons a t ih =>
    intro m k
    rw [List.foldl_cons, ih]
    by_cases hk : k ∈ t
    · simp [hk]
    · by_cases hka : a = k
      · simp [hk, hka, alistGet?_alistSet]
      · have hka2 : ¬ k = a := fun he => hka he.symm
        simp [hk, hka, hka2, alistGet?_alistSet]

theorem matchPNumDash_block (d : List Char) (hne : d ≠ []) (hdig : ∀ c ∈ d, Char.isDigit c)
    (t : List Char) : matchPNumDash ('P' :: (d ++ '-' :: t)) = some t := by
  have htw : (d ++ '-' :: t).takeWhile Char.isDigit = d :=
    takeWhile_append_not _ _ hdig _ (by decide) _
  have hdr : (d ++ '-' :: t).drop d.length = '-' :: t := List.drop_left d ('-' :: t)
  simp only [matchPNumDash, htw, hdr]
  simp [hne]

theorem matchPNumDash_cons_ne (c : Char) (rest : List Char) (h : c ≠ 'P') :
    matchPNumDash (c :: rest) = none := by
  simp only [matchPNumDash]
  rw [if_neg]
  intro hc
  exact h hc.1

theorem searchPP_eq_false (l : List Char) (h : ∀ c ∈ l, c ≠ 'P') : searchPP l = false := by
  induction l with
  | nil => rfl
  | cons c rest ih =>
    have hm : matchPNumDash (c :: rest) = none := matchPNumDash_cons_ne c rest (h c (by simp))
    simp only [searchPP, matchPPAt, hm]
    simpa using ih (fun x hx => h x (by simp [hx]))

theorem scanPCodes_blocks (ds : List (List Char))
    (h : ∀ d ∈ ds, d ≠ [] ∧ ∀ c ∈ d, Char.isDigit c) :
    scanPCodes ((ds.map pBlock).flatten) = ds.map (fun d => 'P' :: d) := by
  induction ds with
  | nil => simp [scanPCodes]
  | cons d rest ih =>
    obtain ⟨hne, hdig⟩ := h d (by simp)
    have hj : (((d :: rest).map pBlock).flatten) =
        'P' :: (d ++ '-' :: ((rest.map pBlock).flatten)) := by
      simp [pBlock]
    rw [hj]
    have htw : (d ++ '-' :: ((rest.map pBlock).flatten)).takeWhile Char.isDigit = d :=
      takeWhile_append_not _ _ hdig _ (by decide) _
    have hdr : (d ++ '-' :: ((rest.map pBlock).flatten)).drop d.length =
        '-' :: ((rest.map pBlock).flatten) := List.drop_left _ _
    simp only [scanPCodes, htw, hdr]
    simp [hne, ih (fun x hx => h x (by simp [hx]))]

theorem scanNums_blocks (ds : List (List Char))
    (h : ∀ d ∈ ds, d ≠ [] ∧ ∀ c ∈ d, Char.isDigit c) :
    scanNums ((ds.map (fun d => d ++ ['-'])).flatten) = ds := by
  induction ds with
  | nil => simp [scanNums]
  | cons d rest ih =>
    obtain ⟨hne, hdig⟩ := h d (by simp)
    cases d with
    | nil => exact absurd rfl hne
    | cons c d2 =>
      have hc : Char.isDigit c := hdig c (by simp)
      have hd2 : ∀ x ∈ d2, Char.isDigit x := fun x hx => hdig x (by simp [hx])
      have hj : ((((c :: d2) :: rest).map (fun d => d ++ ['-'])).flatten) =
          c :: (d2 ++ '-' :: ((rest.map (fun d => d ++ ['-'])).flatten)) := by
        simp
      rw [hj]
      have htw : (d2 ++ '-' :: ((rest.map (fun d => d ++ ['-'])).flatten)).takeWhile
          Char.isDigit = d2 := takeWhile_append_not _ _ hd2 _ (by decide) _
      have hdr : (d2 ++ '-' :: ((rest.map (fun d => d ++ ['-'])).flatten)).drop d2.length =
          '-' :: ((rest.map (fun d => d ++ ['-'])).flatten) := List.drop_left _ _
      simp only [scanNums, hc, htw, hdr]
      simp [ih (fun x hx => h x (by simp [hx]))]

theorem pBlock_join_chars (ds : List (List Char)) (h : ∀ d ∈ ds, ∀ c ∈ d, Char.isDigit c) :
    ∀ x ∈ ((ds.map pBlock).flatten), x = 'P' ∨ x = '-' ∨ Char.isDigit x := by
  intro x hx
  rw [List.mem_flatten] at hx
  obtain ⟨l, hl, hxl⟩ := hx
  rw [List.mem_map] at hl
  obtain ⟨d, hd, rfl⟩ := hl
  simp only [pBlock, List.cons_append, List.mem_cons, List.mem_append,
    List.mem_singleton, List.not_mem_nil, or_false] at hxl
  rcases hxl with rfl | hxl | rfl
  · left; rfl
  · right; right; exact h d hd x hxl
  · right; left; rfl

theorem numBlock_join_chars (ds : List (List Char))
    (h : ∀ d ∈ ds, ∀ c ∈ d, Char.isDigit c) :
    ∀ x ∈ ((ds.map (fun d => d ++ ['-'])).flatten), x = '-' ∨ Char.isDigit x := by
  intro x hx
  rw [List.mem_flatten] at hx
  obtain ⟨l, hl, hxl⟩ := hx
  rw [List.mem_map] at hl
  obtain ⟨d, hd, rfl⟩ := hl
  simp only [List.mem_append, List.mem_singleton, List.mem_cons,
    List.not_mem_nil, or_false] at hxl
  rcases hxl with hxl | rfl
  · right; exact h d hd x hxl
  · left; rfl

theorem searchPP_cons (c : Char) (rest : List Char) :
    searchPP (c :: rest) = (matchPPAt (c :: rest) || searchPP rest) := rfl

theorem parseLab_compact (d0 : List Char) (rest : List (List Char))
    (h0 : d0 ≠ []) (h0d : ∀ c ∈ d0, Char.isDigit c)
    (hrest : ∀ d ∈ rest, d ≠ [] ∧ ∀ c ∈ d, Char.isDigit c) :
    parseLabSlotCodes (compactLabSlot d0 rest) = normalizedPeriodCodes (d0 :: rest) := by
  have hall : ∀ d ∈ d0 :: rest, d ≠ [] ∧ ∀ c ∈ d, Char.isDigit c := by
    intro d hd
    rcases List.mem_cons.mp hd with rfl | hd
    · exact ⟨h0, h0d⟩
    · exact hrest d hd
  have hdata : (compactLabSlot d0 rest).data =
      'P' :: d0 ++ ['-'] ++ ((rest.map (fun d => d ++ ['-'])).flatten) := rfl
  have hshape : 'P' :: d0 ++ ['-'] ++ ((rest.map (fun d => d ++ ['-'])).flatten) =
      'P' :: (d0 ++ '-' :: ((rest.map (fun d => d ++ ['-'])).flatten)) := by simp
  have hm : matchPNumDash ((compactLabSlot d0 rest).data) =
      some ((rest.map (fun d => d ++ ['-'])).flatten) := by
    rw [hdata, hshape]; exact matchPNumDash_block d0 h0 h0d _
  have htailP : ∀ x ∈ d0 ++ '-' :: ((rest.map (fun d => d ++ ['-'])).flatten), x ≠ 'P' := by
    intro x hx
    rcases List.mem_append.mp hx with hx | hx
    · exact digit_ne_P x (h0d x hx)
    · rcases List.mem_cons.mp hx with rfl | hx
      · decide
      · rcases numBlock_join_chars rest (fun d hd => (hrest d hd).2) x hx with rfl | hd
        · decide
        · exact digit_ne_P x hd
  have hmm : (matchPNumDash ((rest.map (fun d => d ++ ['-'])).flatten)).isSome = false := by
    cases rest with
    | nil => rfl
    | cons d1 r2 =>
      obtain ⟨h1ne, h1d⟩ := hrest d1 (by simp)
      cases d1 with
      | nil => exact absurd rfl h1ne
      | cons c1 d1t =>
        have hsh : (((c1 :: d1t) :: r2).map (fun d => d ++ ['-'])).flatten =
            c1 :: (d1t ++ '-' :: ((r2.map (fun d => d ++ ['-'])).flatten)) := by simp
        rw [hsh, matchPNumDash_cons_ne c1 _ (digit_ne_P c1 (h1d c1 (by simp)))]
        rfl
  have hs : searchPP ((compactLabSlot d0 rest).data) = false := by
    rw [hdata, hshape, searchPP_cons]
    have h1 : matchPPAt ('P' :: (d0 ++ '-' :: ((rest.map (fun d => d ++ ['-'])).flatten))) =
        false := by
      have hm2 : matchPNumDash
          ('P' :: (d0 ++ '-' :: ((rest.map (fun d => d ++ ['-'])).flatten))) =
          some ((rest.map (fun d => d ++ ['-'])).flatten) :=
        matchPNumDash_block d0 h0 h0d _
      simp only [matchPPAt, hm2]
      exact hmm
    rw [h1, searchPP_eq_false _ htailP]
    rfl
  have hsc : scanNums ((compactLabSlot d0 rest).data) = d0 :: rest := by
    rw [hdata, hshape]
    have hstep : scanNums ('P' :: (d0 ++ '-' :: ((rest.map (fun d => d ++ ['-'])).flatten))) =
        scanNums (d0 ++ '-' :: ((rest.map (fun d => d ++ ['-'])).flatten)) := by
      simp only [scanNums]
      rw [if_neg (by decide)]
    rw [hstep]
    have hsh2 : d0 ++ '-' :: ((rest.map (fun d => d ++ ['-'])).flatten) =
        (((d0 :: rest)).map (fun d => d ++ ['-'])).flatten := by simp
    rw [hsh2]
    exact scanNums_blocks _ hall
  simp only [parseLabSlotCodes, hs, hm, hsc]
  simp [normalizedPeriodCodes, List.map_map]

theorem parseLab_repeated (d0 : List Char) (rest : List (List Char))
    (h0 : d0 ≠ []) (h0d : ∀ c ∈ d0, Char.isDigit c)
    (hrest : ∀ d ∈ rest, d ≠ [] ∧ ∀ c ∈ d, Char.isDigit c) :
    parseLabSlotCodes (repeatedLabSlot (d0 :: rest)) = normalizedPeriodCodes (d0 :: rest) := by
  have hall : ∀ d ∈ d0 :: rest, d ≠ [] ∧ ∀ c ∈ d, Char.isDigit c := by
    intro d hd
    rcases List.mem_cons.mp hd with rfl | hd
    · exact ⟨h0, h0d⟩
    · exact hrest d hd
  cases rest with
  | nil =>
    have heq : repeatedLabSlot [d0] = compactLabSlot d0 [] := by
      apply congrArg List.asString
      simp [repeatedLabSlot, compactLabSlot, pBlock]
    rw [show repeatedLabSlot [d0] = compactLabSlot d0 [] from heq]
    exact parseLab_compact d0 [] h0 h0d (by simp)
  | cons d1 r2 =>
    obtain ⟨h1ne, h1d⟩ := hrest d1 (by simp)
    have hdata : (repeatedLabSlot (d0 :: d1 :: r2)).data =
        ((d0 :: d1 :: r2).map pBlock).flatten := rfl
    have hsh : ((d0 :: d1 :: r2).map pBlock).flatten =
        'P' :: (d0 ++ '-' :: (((d1 :: r2).map pBlock).flatten)) := by
      simp [pBlock]
    have hsh2 : (((d1 :: r2).map pBlock).flatten) =
        'P' :: (d1 ++ '-' :: ((r2.map pBlock).flatten)) := by
      simp [pBlock]
    have hm1 : matchPNumDash (((d0 :: d1 :: r2).map pBlock).flatten) =
        some (((d1 :: r2).map pBlock).flatten) := by
      rw [hsh]; exact matchPNumDash_block d0 h0 h0d _
    have hm2 : matchPNumDash ((((d1 :: r2)).map pBlock).flatten) =
        some ((r2.map pBlock).flatten) := by
      rw [hsh2]; exact matchPNumDash_block d1 h1ne h1d _
    have hs : searchPP ((repeatedLabSlot (d0 :: d1 :: r2)).data) = true := by
      rw [hdata, hsh, searchPP_cons]
      have : matchPPAt ('P' :: (d0 ++ '-' :: (((d1 :: r2).map pBlock).flatten))) = true := by
        rw [← hsh]
        simp only [matchPPAt, hm1, hm2]
        rfl
      rw [this]
      rfl
    simp only [parseLabSlotCodes, hs, if_pos]
    rw [show (repeatedLabSlot (d0 :: d1 :: r2)).data = ((d0 :: d1 :: r2).map pBlock).flatten
      from rfl]
    rw [scanPCodes_blocks _ hall]
    simp [normalizedPeriodCodes, List.map_map]

theorem data_asString (l : List Char) : (l.asString).data = l := rfl

theorem mem_data_contains (s : String) (c : Char) (h : c ∈ s.data) :
    strContainsChar s c = true := by
  unfold strContainsChar
  exact List.elem_eq_true_of_mem h

theorem buildEnhancedMapping_lab (c : CourseRow)
    (hnw : ∀ x ∈ c.slot.data, ¬ Char.isWhitespace x)
    (hne : c.slot.data ≠ [])
    (hdash : strContainsChar c.slot '-' = true) :
    buildEnhancedMapping [c] =
      alistSet ((parseLabSlotCodes c.slot).foldl
        (fun m code => alistSet m code (courseInfoOf c)) []) c.slot (courseInfoOf c) := by
  have hstrip : pyStrip c.slot = c.slot := pyStrip_eq_self _ hnw
  have hslotne : ¬ c.slot = "" := string_ne_empty_of_data _ hne
  simp only [buildEnhancedMapping, List.foldl_cons, List.foldl_nil, hstrip]
  rw [if_neg hslotne, if_neg (fun hand => hand.2 hdash), if_pos hdash]

/-- C2: a multi-period lab slot written with repeated prefixes
("P37-P38-P39-") and the same slot written in compact form
("P37-38-39-") are both expanded by merge_timetable_with_courses to
the same normalized per-period codes ("P37-", "P38-", "P39-"); each
code is mapped to the course's CourseInfo, and the whole raw slot
string is registered as well. -/
theorem lab_slot_two_forms_agree (d0 : List Char) (rest : List (List Char))
    (h0 : d0 ≠ []) (h0d : ∀ c ∈ d0, Char.isDigit c)
    (hrest : ∀ d ∈ rest, d ≠ [] ∧ ∀ c ∈ d, Char.isDigit c) (c : CourseRow)
    (hslot : c.slot = repeatedLabSlot (d0 :: rest) ∨ c.slot = compactLabSlot d0 rest) :
    parseLabSlotCodes (repeatedLabSlot (d0 :: rest)) = normalizedPeriodCodes (d0 :: rest) ∧
    parseLabSlotCodes (compactLabSlot d0 rest) = normalizedPeriodCodes (d0 :: rest) ∧
    (∀ code ∈ normalizedPeriodCodes (d0 :: rest),
      alistGet? (buildEnhancedMapping [c]) code = some (courseInfoOf c)) ∧
    alistGet? (buildEnhancedMapping [c]) c.slot = some (courseInfoOf c) := by
  have hall : ∀ d ∈ d0 :: rest, d ≠ [] ∧ ∀ c ∈ d, Char.isDigit c := by
    intro d hd
    rcases List.mem_cons.mp hd with rfl | hd
    · exact ⟨h0, h0d⟩
    · exact hrest d hd
  have hrep := parseLab_repeated d0 rest h0 h0d hrest
  have hcomp := parseLab_compact d0 rest h0 h0d hrest
  have hparse : parseLabSlotCodes c.slot = normalizedPeriodCodes (d0 :: rest) := by
    rcases hslot with hsl | hsl <;> rw [hsl]
    · exact hrep
    · exact hcomp
  have hchars : ∀ x ∈ c.slot.data, x = 'P' ∨ x = '-' ∨ Char.isDigit x := by
    rcases hslot with hsl | hsl <;> rw [hsl]
    · exact pBlock_join_chars (d0 :: rest) (fun d hd => (hall d hd).2)
    · intro x hx
      have hx2 : x ∈ 'P' :: (d0 ++ '-' :: ((rest.map (fun d => d ++ ['-'])).flatten)) := by
        have hdata : (compactLabSlot d0 rest).data =
            'P' :: d0 ++ ['-'] ++ ((rest.map (fun d => d ++ ['-'])).flatten) := rfl
        rw [hdata] at hx
        simpa using hx
      rcases List.mem_cons.mp hx2 with rfl | hx2
      · left; rfl
      · rcases List.mem_append.mp hx2 with hx3 | hx3
        · right; right; exact h0d x hx3
        · rcases List.mem_cons.mp hx3 with rfl | hx3
          · right; left; rfl
          · rcases numBlock_join_chars rest (fun d hd => (hrest d hd).2) x hx3 with rfl | hd
            · right; left; rfl
            · right; right; exact hd
  have hnw : ∀ x ∈ c.slot.data, ¬ Char.isWhitespace x := by
    intro x hx
    rcases hchars x hx with rfl | rfl | hd
    · decide
    · decide
    · exact not_whitespace_of_digit x hd
  have hne2 : c.slot.data ≠ [] := by
    rcases hslot with hsl | hsl <;> rw [hsl] <;>
      simp [repeatedLabSlot, compactLabSlot, pBlock, data_asString]
  have hdashmem : '-' ∈ c.slot.data := by
    rcases hslot with hsl | hsl <;> rw [hsl]
    · show '-' ∈ ((d0 :: rest).map pBlock).flatten
      rw [List.mem_flatten]
      exact ⟨pBlock d0, by simp, by simp [pBlock]⟩
    · show '-' ∈ 'P' :: d0 ++ ['-'] ++ ((rest.map (fun d => d ++ ['-'])).flatten)
      simp
  have hdash : strContainsChar c.slot '-' = true := mem_data_contains _ _ hdashmem
  have hmap := buildEnhancedMapping_lab c hnw hne2 hdash
  refine ⟨hrep, hcomp, ?_, ?_⟩
  · intro code hcode
    rw [hmap, alistGet?_alistSet]
    by_cases hsc : c.slot = code
    · simp [hsc]
    · rw [if_neg hsc, hparse, alistGet?_foldl_set]
      rw [if_pos hcode]
  · rw [hmap, alistGet?_alistSet, if_pos rfl]

/-! ## Claims on the merge output (C3, C4, C5, C10) -/

/-- Cell lookup on a raw merged timetable. -/
def mergedLookup (merged : List (String × List (String × MergedCell))) (day t : String) :
    Option MergedCell :=
  match alistGet? merged day with
  | some cells => alistGet? cells t
  | none => none

theorem alistGet?_map_keyed {α β γ : Type} [DecidableEq α] (l : List (α × β))
    (f : α × β → γ) (k : α) (v : γ)
    (h : alistGet? (l.map (fun x => (x.1, f x))) k = some v) :
    ∃ x ∈ l, x.1 = k ∧ v = f x := by
  induction l with
  | nil => simp [alistGet?] at h
  | cons p t ih =>
    obtain ⟨k1, v1⟩ := p
    simp only [List.map_cons, alistGet?] at h
    by_cases hk : k1 = k
    · rw [if_pos hk] at h
      exact ⟨(k1, v1), by simp, hk, (Option.some.inj h).symm⟩
    · rw [if_neg hk] at h
      obtain ⟨x, hx, h1, h2⟩ := ih h
      exact ⟨x, List.mem_cons_of_mem _ hx, h1, h2⟩

theorem mergedLookup_mergeOfficial (cd : List CourseRow) (tt : OfficialTT)
    (day t : String) (cell : MergedCell)
    (h : mergedLookup (mergeOfficial cd tt) day t = some cell) :
    ∃ code, cell = mergeCell (buildEnhancedMapping cd)
      (breakCodes tt (buildEnhancedMapping cd)) t code := by
  unfold mergedLookup at h
  cases hday : alistGet? (mergeOfficial cd tt) day with
  | none => rw [hday] at h; exact absurd h (by simp)
  | some cells =>
    rw [hday] at h
    unfold mergeOfficial at hday
    obtain ⟨dayrow, hmem, hkd, hcells⟩ := alistGet?_map_keyed tt _ day cells hday
    subst hcells
    obtain ⟨cellp, hmem2, hkt, hcell⟩ := alistGet?_map_keyed dayrow.2 _ t cell h
    rw [hkt] at hcell
    exact ⟨cellp.2, hcell⟩

theorem mergeCell_time (m : List (String × CourseInfo)) (bset : List String)
    (t code : String) : (mergeCell m bset t code).time = t := by
  unfold mergeCell
  dsimp only
  repeat' split
  all_goals rfl

theorem mergeCell_original_slot (m : List (String × CourseInfo)) (bset : List String)
    (t code : String) : (mergeCell m bset t code).original_slot = code := by
  unfold mergeCell
  dsimp only
  repeat' split
  all_goals rfl

theorem mergeCell_blank_of_empty (m : List (String × CourseInfo)) (bset : List String)
    (t code : String) (h : is_empty_slot code = true) :
    (mergeCell m bset t code).display = "" ∧ (mergeCell m bset t code).courses = [] := by
  unfold mergeCell
  rw [if_pos h]
  exact ⟨rfl, rfl⟩

theorem mergeCell_blank_of_X (m : List (String × CourseInfo)) (bset : List String)
    (t : String) (h : alistGet? m "X" = none) :
    (mergeCell m bset t "X").display = "" ∧ (mergeCell m bset t "X").courses = [] := by
  unfold mergeCell
  rw [if_neg (by decide : ¬ is_empty_slot "X" = true),
    if_neg (by decide : ¬ strContainsChar "X" '/' = true)]
  rw [h]
  simp

/-- C3 (evidence for the code bug): with no batch from the page parse,
the URL, or the profile, run_timetable_scraper silently defaults the
batch to "1" and the subsequent merge proceeds with status "success" —
even though merge_timetable_with_courses itself, given an unresolved
batch, returns the terminal error result the claim requires. -/
theorem batch_fallback_defaults_to_one :
    run_timetable_batch_fallback none none none = "1" ∧
    (merge_timetable_with_courses [] (some "1") none).status = "success" ∧
    (merge_timetable_with_courses [] none none).status = "error" :=
  ⟨rfl, rfl, rfl⟩

/-- C4 counterexample: merging the batch-1 canonical schedule with an
empty course list does not reproduce the canonical code as display
text: the Day 1 / 08:00-08:50 cell has canonical code "A" but its
display text is "" (with nothing resolving, every canonical code
becomes a break code and renders blank). -/
theorem merge_empty_courses_literal_display_cex :
    (mergedCell? (merge_timetable_with_courses [] (some "1") none)
        "Day 1" "08:00-08:50").map MergedCell.display = some "" ∧
    ("" : String) ≠ "A" :=
  ⟨by decide, by decide⟩

/-- Computable check that every cell of a successful merge result has
empty display text and no resolved courses. -/
def allCellsBlank (r : MergeResult) : Bool :=
  match r with
  | .error _ => false
  | .success _ merged _ _ =>
    merged.all (fun day => day.2.all (fun cell =>
      cell.2.display = "" && cell.2.courses = []))

/-- C4 amended: merging either canonical schedule with an empty course
list succeeds, and every cell of the result (break or not) has empty
display text and an empty courses list — the canonical codes do NOT
pass through as literal display text, because with an empty slot map
every canonical code is classified as a break code. -/
theorem merge_empty_courses_all_blank :
    (merge_timetable_with_courses [] (some "1") none).status = "success" ∧
    allCellsBlank (merge_timetable_with_courses [] (some "1") none) = true ∧
    (merge_timetable_with_courses [] (some "2") none).status = "success" ∧
    allCellsBlank (merge_timetable_with_courses [] (some "2") none) = true :=
  ⟨rfl, by decide, rfl, by decide⟩

/-- A course whose alternate slot string "A/X" registers the code "X"
in the slot mapping. -/
def slashXCourse : CourseRow :=
  { course_code := "18CSC303J", course_title := "Operating Systems", slot := "A/X",
    gcr_code := "", faculty_name := "Dr. B", course_type := "Theory", room_no := "TP101" }

/-- C5 counterexample: a schedule cell whose code is exactly "X" is NOT
rendered empty when a scraped course has registered "X" in the slot
mapping (here via the alternate slot "A/X"): the cell resolves to that
course and displays its title. -/
theorem empty_slot_x_resolves_cex :
    mergedLookup (mergeOfficial [slashXCourse] [("Day 1", [("08:00-08:50", "X")])])
      "Day 1" "08:00-08:50" =
      some { time := "08:00-08:50", original_slot := "X",
             courses := [courseInfoOf slashXCourse],
             display := "Operating Systems (08:00-08:50)" } ∧
    ("Operating Systems (08:00-08:50)" : String) ≠ "" ∧
    [courseInfoOf slashXCourse] ≠ [] :=
  ⟨by decide, by decide, by decide⟩

/-- C5 amended: in a merged timetable, a cell whose canonical code is
empty, "-", or "break"/"empty" in any letter case has empty display
text and no courses; a cell whose code is "X" is likewise blank
provided no scraped course registered "X" in the slot mapping. -/
theorem empty_or_x_cell_blank (cd : List CourseRow) (tt : OfficialTT) (day t : String)
    (cell : MergedCell) (hcell : mergedLookup (mergeOfficial cd tt) day t = some cell)
    (hcode : is_empty_slot cell.original_slot = true ∨
      (cell.original_slot = "X" ∧ alistGet? (buildEnhancedMapping cd) "X" = none)) :
    cell.display = "" ∧ cell.courses = [] := by
  obtain ⟨code, rfl⟩ := mergedLookup_mergeOfficial cd tt day t cell hcell
  rw [mergeCell_original_slot] at hcode
  rcases hcode with he | ⟨hx, hm⟩
  · exact mergeCell_blank_of_empty _ _ _ _ he
  · subst hx
    exact mergeCell_blank_of_X _ _ _ hm

/-- Witness for C5 (amended) at a concrete schedule with a "break"
cell and no courses. -/
theorem empty_or_x_cell_blank_check :
    (mergedLookup (mergeOfficial [] [("Day 1", [("08:00-08:50", "break")])])
        "Day 1" "08:00-08:50" =
      some { time := "08:00-08:50", original_slot := "break", courses := [],
             display := "" }) ∧
    ({ time := "08:00-08:50", original_slot := "break", courses := [],
       display := "" } : MergedCell).display = "" ∧
    ({ time := "08:00-08:50", original_slot := "break", courses := [],
       display := "" } : MergedCell).courses = [] :=
  ⟨by decide,
   empty_or_x_cell_blank [] [("Day 1", [("08:00-08:50", "break")])] "Day 1" "08:00-08:50"
     { time := "08:00-08:50", original_slot := "break", courses := [], display := "" }
     (by decide) (Or.inl (by decide))⟩

/-- C10: every successful result of merge_timetable_with_courses has
exactly the days, in order, of the selected canonical schedule; each
day has exactly that day's time ranges, in order; and every cell —
whose dict always has exactly the keys time, original_slot, courses
and display, the fields of MergedCell — satisfies time = its time
range and original_slot = the canonical code of that cell. -/
theorem merged_timetable_structure (cd : List CourseRow) (bi : Option String)
    (pd : Option (List (String × String))) (b : String)
    (merged : List (String × List (String × MergedCell)))
    (pde : Option (List (String × String))) (cde : List CourseRow)
    (h : merge_timetable_with_courses cd bi pd = MergeResult.success b merged pde cde) :
    ∃ tt : OfficialTT, (tt = batch_1_timetable ∨ tt = batch_2_timetable) ∧
      List.Forall₂ (fun (md : String × List (String × MergedCell))
          (td : String × List (String × String)) =>
        md.1 = td.1 ∧
        List.Forall₂ (fun (mc : String × MergedCell) (tc : String × String) =>
          mc.1 = tc.1 ∧ (mc.2).time = tc.1 ∧ (mc.2).original_slot = tc.2) md.2 td.2)
        merged tt := by
  have hstruct : ∀ tt2 : OfficialTT,
      List.Forall₂ (fun (md : String × List (String × MergedCell))
          (td : String × List (String × String)) =>
        md.1 = td.1 ∧
        List.Forall₂ (fun (mc : String × MergedCell) (tc : String × String) =>
          mc.1 = tc.1 ∧ (mc.2).time = tc.1 ∧ (mc.2).original_slot = tc.2) md.2 td.2)
        (mergeOfficial cd tt2) tt2 := by
    intro tt2
    unfold mergeOfficial
    rw [List.forall₂_map_left_iff]
    apply List.forall₂_same.2
    intro dayrow _
    refine ⟨rfl, ?_⟩
    rw [List.forall₂_map_left_iff]
    apply List.forall₂_same.2
    intro cellp _
    exact ⟨rfl, mergeCell_time _ _ _ _, mergeCell_original_slot _ _ _ _⟩
  simp only [merge_timetable_with_courses] at h
  cases hres : resolveStudentBatch bi pd with
  | none => rw [hres] at h; exact absurd h (by simp)
  | some sb =>
    rw [hres] at h
    simp only [] at h
    by_cases h1 : strContainsChar sb '1' = true
    · rw [if_pos h1] at h
      injection h with hb hm hpd hcd
      exact ⟨batch_1_timetable, Or.inl rfl, hm ▸ hstruct batch_1_timetable⟩
    · rw [if_neg h1] at h
      by_cases h2 : strContainsChar sb '2' = true
      · rw [if_pos h2] at h
        injection h with hb hm hpd hcd
        exact ⟨batch_2_timetable, Or.inr rfl, hm ▸ hstruct batch_2_timetable⟩
      · rw [if_neg h2] at h
        exact absurd h (by simp)

/-- Witness for C10 at a concrete successful merge. -/
theorem merged_timetable_structure_check :
    (merge_timetable_with_courses [] (some "1") none =
      MergeResult.success "Batch 1" (mergeOfficial [] batch_1_timetable) none []) ∧
    (∃ tt : OfficialTT, (tt = batch_1_timetable ∨ tt = batch_2_timetable) ∧
      List.Forall₂ (fun (md : String × List (String × MergedCell))
          (td : String × List (String × String)) =>
        md.1 = td.1 ∧
        List.Forall₂ (fun (mc : String × MergedCell) (tc : String × String) =>
          mc.1 = tc.1 ∧ (mc.2).time = tc.1 ∧ (mc.2).original_slot = tc.2) md.2 td.2)
        (mergeOfficial [] batch_1_timetable) tt) :=
  ⟨by decide,
   merged_timetable_structure [] (some "1") none "Batch 1"
     (mergeOfficial [] batch_1_timetable) none [] (by decide)⟩

/-- A lab course whose slot is written in the repeated form. -/
def labCourse : CourseRow :=
  { course_code := "18CSC", course_title := "OS Lab", slot := "P37-P38-P39-",
    gcr_code := "", faculty_name := "Dr. L", course_type := "Lab", room_no := "LAB1" }

/-- Witness for C2 at the concrete periods 37, 38, 39. -/
theorem lab_slot_two_forms_agree_check :
    (labCourse.slot = repeatedLabSlot (['3','7'] :: [['3','8'], ['3','9']]) ∨
      labCourse.slot = compactLabSlot ['3','7'] [['3','8'], ['3','9']]) ∧
    (parseLabSlotCodes (repeatedLabSlot (['3','7'] :: [['3','8'], ['3','9']])) =
        normalizedPeriodCodes (['3','7'] :: [['3','8'], ['3','9']]) ∧
      parseLabSlotCodes (compactLabSlot ['3','7'] [['3','8'], ['3','9']]) =
        normalizedPeriodCodes (['3','7'] :: [['3','8'], ['3','9']]) ∧
      (∀ code ∈ normalizedPeriodCodes (['3','7'] :: [['3','8'], ['3','9']]),
        alistGet? (buildEnhancedMapping [labCourse]) code = some (courseInfoOf labCourse)) ∧
      alistGet? (buildEnhancedMapping [labCourse]) labCourse.slot =
        some (courseInfoOf labCourse)) :=
  ⟨Or.inl (by decide),
   lab_slot_two_forms_agree ['3','7'] [['3','8'], ['3','9']] (by decide) (by decide)
     (by decide) labCourse (Or.inl (by decide))⟩

/-! ## Course-title resolution for marks (C6) -/

/-- Python s.replace("Regular", ""): remove every (non-overlapping,
left-to-right) occurrence of "Regular". -/
def removeRegularChars : List Char → List Char
  | 'R' :: 'e' :: 'g' :: 'u' :: 'l' :: 'a' :: 'r' :: rest => removeRegularChars rest
  | c :: rest => c :: removeRegularChars rest
  | [] => []

def removeRegular (s : String) : String := (removeRegularChars s.data).asString

/-- get_course_title (lines 1287-1307): walk the attendance records in
order; for each record first compare the stripped stored code
case-insensitively with the query code, then compare both sides with
the "Regular" token removed; the first record passing either check
supplies its course_title, and with no match (or no records at all)
the course code itself is returned. -/
def get_course_title (course_code : String) : List AttendanceRecord → String
  | [] => course_code
  | r :: rest =>
    if pyLower (pyStrip r.course_code) = pyLower course_code then r.course_title
    else if pyLower (pyStrip (removeRegular (pyStrip r.course_code))) =
        pyLower (pyStrip (removeRegular course_code)) then r.course_title
    else get_course_title course_code rest

/-- The course_name computed for one marks row by parse_and_save_marks
(lines 1360-1372): the attendance-based resolution is used whenever the
attendance record list is non-empty, and the marks table's own title
text only when it is empty. -/
def marksCourseName (course_code fallback_title : String)
    (attendance_records : List AttendanceRecord) : String :=
  if attendance_records ≠ [] then get_course_title course_code attendance_records
  else fallback_title

/-- Either of the two per-record checks of get_course_title. -/
def codeMatchesRecord (course_code : String) (r : AttendanceRecord) : Bool :=
  (pyLower (pyStrip r.course_code) == pyLower course_code) ||
  (pyLower (pyStrip (removeRegular (pyStrip r.course_code))) ==
    pyLower (pyStrip (removeRegular course_code)))

/-- An attendance record that does not match the marks row "CS101". -/
def otherRec : AttendanceRecord :=
  { course_code := "MA102", course_title := "Calculus", category := "Theory",
    faculty := "Dr. M", slot := "A", hours_conducted := 10, hours_absent := 0,
    attendance_percentage := 100 }

/-- C6 counterexample: with a non-empty attendance record list in which
no record matches, the course_name of the marks row is the row's course
CODE, not the marks table's own title text as the claim states. -/
theorem marks_title_fallback_cex :
    marksCourseName "CS101" "Programming in C" [otherRec] = "CS101" ∧
    ("CS101" : String) ≠ "Programming in C" :=
  ⟨by decide, by decide⟩

/-- C6 amended: against a non-empty attendance record list the
course_name is the course_title of the FIRST record matching the marks
row's code — either exactly case-insensitively or after removing the
"Regular" token from both sides — and the row's course code when no
record matches; the marks table's own title text is used only when the
attendance record list is empty. -/
theorem course_title_resolution (course_code fallback_title : String)
    (records : List AttendanceRecord) :
    (records = [] → marksCourseName course_code fallback_title records = fallback_title) ∧
    (records ≠ [] →
      marksCourseName course_code fallback_title records =
        match records.find? (codeMatchesRecord course_code) with
        | some r => r.course_title
        | none => course_code) := by
  constructor
  · intro h
    subst h
    rfl
  · intro h
    unfold marksCourseName
    rw [if_pos h]
    clear h
    induction records with
    | nil => rfl
    | cons r rest ih =>
      by_cases h1 : pyLower (pyStrip r.course_code) = pyLower course_code
      · rw [get_course_title, if_pos h1]
        have hm : codeMatchesRecord course_code r = true := by
          unfold codeMatchesRecord
          simp [h1]
        rw [List.find?_cons_of_pos _ hm]
      · by_cases h2 : pyLower (pyStrip (removeRegular (pyStrip r.course_code))) =
            pyLower (pyStrip (removeRegular course_code))
        · rw [get_course_title, if_neg h1, if_pos h2]
          have hm : codeMatchesRecord course_code r = true := by
            unfold codeMatchesRecord
            simp [h2]
          rw [List.find?_cons_of_pos _ hm]
        · rw [get_course_title, if_neg h1, if_neg h2]
          have hm : ¬ codeMatchesRecord course_code r = true := by
            unfold codeMatchesRecord
            simp [h1, h2]
          rw [List.find?_cons_of_neg _ hm]
          exact ih

/-- Witness for C6 (amended): a matching record list and the empty
list, both at concrete inputs. -/
theorem course_title_resolution_check :
    (([otherRec] : List AttendanceRecord) ≠ [] ∧
      marksCourseName "ma102" "Fallback" [otherRec] =
        match [otherRec].find? (codeMatchesRecord "ma102") with
        | some r => r.course_title
        | none => "ma102") ∧
    (([] : List AttendanceRecord) = [] →
      marksCourseName "CS1" "Fallback" [] = "Fallback") :=
  ⟨⟨by decide, (course_title_resolution "ma102" "Fallback" [otherRec]).2 (by decide)⟩,
   (course_title_resolution "CS1" "Fallback" []).1⟩

/-! ## The scrape entry point run_scraper (C7) -/

/-- The result dict returned by one sub-scraper run: always carries a
"status"; a "message" key may be absent (run_attendance_scraper's
success dict has none). -/
structure SubResult where
  status : String
  message : Option String
deriving DecidableEq, Repr

/-- The result dict of run_scraper (lines 3925-3936), restricted to the
fields the claim is about — status, message, data — plus the length of
the errors list.  The structure always carries the three keys; the
wall-clock fields (started_at, duration…) are not modelled. -/
structure RunResult where
  status : String
  message : String
  data : Option SubResult
  errors : Nat
deriving DecidableEq, Repr

/-- One attempt of run_scraper's retry loop: the dispatched sub-scraper
either returns a result dict or raises. -/
abbrev AttemptOutcome := Except String SubResult

/-- The retry loop of run_scraper (lines 3956-4014), folded over the
outcomes of the successive attempts.  A returned dict updates status,
message and data and stops the loop on "success"/"partial_success";
any raised exception is caught, recorded in the errors list — and on
the final attempt sets a failure message — but is never re-raised. -/
def runAttempts (total : Nat) : RunResult → List AttemptOutcome → RunResult
  | acc, [] => acc
  | acc, out :: rest =>
    match out with
    | .ok sr =>
      let acc2 : RunResult :=
        { acc with
          status := sr.status
          message := sr.message.getD "Execution completed without detailed status"
          data := some sr }
      if sr.status = "success" ∨ sr.status = "partial_success" then acc2
      else runAttempts total { acc2 with errors := acc2.errors + 1 } rest
    | .error e =>
      match rest with
      | [] =>
        { acc with
          errors := acc.errors + 1
          message := "Failed after " ++ toString total ++ " attempts: " ++ e }
      | r2 :: rest2 => runAttempts total { acc with errors := acc.errors + 1 } (r2 :: rest2)

/-- run_scraper (lines 3911-4025): initialize the result dict with
status "error", dispatch on scraper_type (an unknown type records an
error and breaks out of the loop immediately), then run the retry
loop.  The result object is always returned, never an exception. -/
def run_scraper (scraper_type : String) (outcomes : List AttemptOutcome) : RunResult :=
  let init : RunResult :=
    { status := "error", message := "Not started", data := none, errors := 0 }
  if pyLower scraper_type = "attendance" ∨ pyLower scraper_type = "timetable" ∨
      pyLower scraper_type = "unified" then
    runAttempts outcomes.length init outcomes
  else
    { init with
      message := "Unknown scraper type: " ++ scraper_type
      errors := 1 }

theorem runAttempts_status_mem (outcomes : List AttemptOutcome) :
    ∀ (acc : RunResult) (total : Nat),
    (acc.status = "success" ∨ acc.status = "partial_success" ∨ acc.status = "error") →
    (∀ sr : SubResult, Except.ok sr ∈ outcomes →
      sr.status = "success" ∨ sr.status = "partial_success" ∨ sr.status = "error") →
    ((runAttempts total acc outcomes).status = "success" ∨
     (runAttempts total acc outcomes).status = "partial_success" ∨
     (runAttempts total acc outcomes).status = "error") := by
  induction outcomes with
  | nil => intro acc total hacc _; exact hacc
  | cons out rest ih =>
    intro acc total hacc h
    cases out with
    | ok sr =>
      have hsr := h sr (by simp)
      simp only [runAttempts]
      by_cases hc : sr.status = "success" ∨ sr.status = "partial_success"
      · rw [if_pos hc]
        exact hsr
      · rw [if_neg hc]
        exact ih _ total hsr (fun sr2 h2 => h sr2 (by simp [h2]))
    | error e =>
      cases rest with
      | nil =>
        simp only [runAttempts]
        exact hacc
      | cons r2 rest2 =>
        simp only [runAttempts]
        exact ih _ total hacc (fun sr2 h2 => h sr2 (by simp [h2]))

theorem runAttempts_all_error (outcomes : List AttemptOutcome) :
    ∀ (acc : RunResult) (total : Nat),
    (∀ out ∈ outcomes, ∃ e, out = Except.error e) →
    (runAttempts total acc outcomes).status = acc.status := by
  induction outcomes with
  | nil => intro acc total _; rfl
  | cons out rest ih =>
    intro acc total h
    obtain ⟨e, rfl⟩ := h out (by simp)
    cases rest with
    | nil => rfl
    | cons r2 rest2 =>
      simp only [runAttempts]
      exact ih _ total (fun o ho => h o (by simp [ho]))

/-- C7: run_scraper always returns a structured result object — the
RunResult structure always carries the keys status, message and data —
and never lets an attempt's exception propagate: when every attempt
raises, the final status is "error", and assuming each returned
sub-result carries one of the statuses the sub-scrapers actually
produce (success, partial_success, error), the final status is always
one of those three — an exception is only ever converted into an
error-status result. -/
theorem run_scraper_error_conversion (scraper_type : String)
    (outcomes : List AttemptOutcome)
    (h : ∀ sr : SubResult, Except.ok sr ∈ outcomes →
      sr.status = "success" ∨ sr.status = "partial_success" ∨ sr.status = "error") :
    ((run_scraper scraper_type outcomes).status = "success" ∨
      (run_scraper scraper_type outcomes).status = "partial_success" ∨
      (run_scraper scraper_type outcomes).status = "error") ∧
    ((∀ out ∈ outcomes, ∃ e, out = Except.error e) →
      (run_scraper scraper_type outcomes).status = "error") := by
  unfold run_scraper
  by_cases ht : pyLower scraper_type = "attendance" ∨ pyLower scraper_type = "timetable" ∨
      pyLower scraper_type = "unified"
  · rw [if_pos ht]
    constructor
    · exact runAttempts_status_mem outcomes _ outcomes.length (Or.inr (Or.inr rfl)) h
    · intro hall
      rw [runAttempts_all_error outcomes _ outcomes.length hall]
  · rw [if_neg ht]
    exact ⟨Or.inr (Or.inr rfl), fun _ => rfl⟩

/-- Witness for C7: two attempts that both raise yield an error-status
result. -/
theorem run_scraper_error_conversion_check :
    (run_scraper "attendance"
      [Except.error "boom", Except.error "timeout"]).status = "error" :=
  (run_scraper_error_conversion "attendance" [Except.error "boom", Except.error "timeout"]
      (fun sr hsr => by simp at hsr)).2
    (fun out ho => by
      rcases (by simpa using ho :
          out = Except.error "boom" ∨ out = Except.error "timeout") with rfl | rfl
      · exact ⟨"boom", rfl⟩
      · exact ⟨"timeout", rfl⟩)

/-! ## Registration-number extraction (C8) -/

/-- Python truthiness of an optional string (None and "" are falsy). -/
def pyTruthyStr : Option String → Bool
  | none => false
  | some s => s ≠ ""

/-- extract_registration_number (lines 864-887), parameterized by what
each of its three strategies (label-adjacent cell, row scan, RA-pattern
regex) finds in the page HTML: each later strategy runs only while the
current value is falsy, and a strategy that finds nothing leaves the
value unchanged.  When everything fails the function returns a falsy
value — an explicit not-found. -/
def extract_registration_number (label_res rows_res regex_res : Option String) :
    Option String :=
  let reg1 := label_res
  let reg2 := if pyTruthyStr reg1 then reg1 else
    match rows_res with
    | some v => some v
    | none => reg1
  if pyTruthyStr reg2 then reg2 else
    match regex_res with
    | some v => some v
    | none => reg2

/-- The strategy loop of extract_registration_number_robust
(lines 2612-2634): return the first truthy strategy result (a strategy
that raises is caught and counts as no result). -/
def firstTruthyResult : List (Option String) → Option String
  | [] => none
  | o :: rest => if pyTruthyStr o then o else firstTruthyResult rest

/-- Python `email.split('@')[0] if '@' in email else email` (line 2638). -/
def emailLocalPart (email : String) : String :=
  if strContainsChar email '@' then (email.data.takeWhile (fun c => c != '@')).asString
  else email

/-- extract_registration_number_robust (lines 2609-2638): try the four
strategies in order; when all fail, fall back to an identifier derived
from the owner's email — never a not-found result. -/
def extract_registration_number_robust (s1 s2 s3 s4 : Option String) (email : String) :
    String :=
  match firstTruthyResult [s1, s2, s3, s4] with
  | some r => r
  | none => emailLocalPart email

/-- C8 counterexample: with every strategy failing on the page,
extract_registration_number_robust does not return an explicit
not-found result — it fabricates an identifier from the email's local
part. -/
theorem regnum_robust_fallback_cex :
    extract_registration_number_robust none none none none "student@srmist.edu.in" =
      "student" ∧
    ("student" : String) ≠ "" :=
  ⟨by decide, by decide⟩

/-- C8 amended: when all extraction strategies fail (produce falsy
results), extract_registration_number returns a falsy value — an
explicit not-found, fabricating nothing — while
extract_registration_number_robust instead falls back to the
email-derived identifier; the attendance caller may then persist a
placeholder snapshot with zero records. -/
theorem regnum_not_found_behavior (label_res rows_res regex_res s1 s2 s3 s4 : Option String)
    (email : String)
    (h1 : pyTruthyStr label_res = false) (h2 : pyTruthyStr rows_res = false)
    (h3 : pyTruthyStr regex_res = false)
    (g1 : pyTruthyStr s1 = false) (g2 : pyTruthyStr s2 = false)
    (g3 : pyTruthyStr s3 = false) (g4 : pyTruthyStr s4 = false) :
    pyTruthyStr (extract_registration_number label_res rows_res regex_res) = false ∧
    extract_registration_number_robust s1 s2 s3 s4 email = emailLocalPart email := by
  have falsy : ∀ o : Option String, pyTruthyStr o = false → o = none ∨ o = some "" := by
    intro o ho
    cases o with
    | none => left; rfl
    | some s =>
      right
      simp [pyTruthyStr] at ho
      rw [ho]
  constructor
  · rcases falsy _ h1 with rfl | rfl <;> rcases falsy _ h2 with rfl | rfl <;>
      rcases falsy _ h3 with rfl | rfl <;> rfl
  · rcases falsy _ g1 with rfl | rfl <;> rcases falsy _ g2 with rfl | rfl <;>
      rcases falsy _ g3 with rfl | rfl <;> rcases falsy _ g4 with rfl | rfl <;> rfl

/-- Witness for C8 (amended) with all strategies empty and a concrete
email. -/
theorem regnum_not_found_behavior_check :
    pyTruthyStr (extract_registration_number none none none) = false ∧
    extract_registration_number_robust none none none none "student@srmist.edu.in" =
      emailLocalPart "student@srmist.edu.in" :=
  regnum_not_found_behavior none none none none none none none "student@srmist.edu.in"
    rfl rfl rfl rfl rfl rfl rfl

end SRM
